import Mathlib

/-!
Verification of the traceprompt-node durable audit pipeline.

This file gives a shallow embedding, in Lean 4, of the core operations of the
traceprompt-node SDK and proves (or refutes) the specification claims about
them.  The embedded functions are translated from the TypeScript sources:

* `canonicalWith` / `canonical`  — `sdk/src/hash.ts` (`canonical`) and the
  `canonicalJSON` variant: the deterministic, key-sorted JSON stringifier.
  JavaScript `Array.prototype.sort()` on strings compares UTF-16 code-unit
  sequences, so string order is modelled by `jsSortLe` below.
* `link` / `runChain`            — `sdk/src/hash.ts` (`link`, `chainHead`).
* `ringPush` / `ringDrip`        — `src/queue/persistentBatcher.ts`.
* `append` (enqueue) and `flushOnce` — `src/queue/persistentBatcher.ts`.
* `sendJsonHeaders` / `wireRequest`  — `node/src/network/transport.ts`.
* `retryGo` / `retryRun`         — `node/src/utils/retry.ts` (`retry`).
* `wrapLLMRun`                   — `node/src/wrapper.ts` (`wrapLLM`).

Effectful code (file system, network, `randomUUID`) is embedded by explicit
state passing: the outbox file is the list of its parsed JSON lines, fresh
UUIDs are drawn from a counter, and a transport attempt's outcome is an
explicit boolean / status argument.
-/

namespace Traceprompt

/-! ### JavaScript string ordering

`Array.prototype.sort()` with no comparator compares strings by their UTF-16
code-unit sequences.  `charUnits` encodes a Unicode scalar value to its UTF-16
code units (one unit below U+10000, a surrogate pair otherwise); `unitsLe` is
lexicographic order on unit sequences. -/

def charUnits (c : Char) : List Nat :=
  let v := c.toNat
  if v < 0x10000 then [v]
  else [0xD800 + (v - 0x10000) / 0x400, 0xDC00 + (v - 0x10000) % 0x400]

def strUnits (s : String) : List Nat :=
  s.data.flatMap charUnits

def unitsLe : List Nat → List Nat → Bool
  | [], _ => true
  | _ :: _, [] => false
  | a :: as, b :: bs => if a < b then true else if b < a then false else unitsLe as bs

/-- JavaScript default sort order on strings: lexicographic on UTF-16 units. -/
def jsSortLe (s t : String) : Bool :=
  unitsLe (strUnits s) (strUnits t)

/-- Code-point order on strings (what the spec calls "code-point order").
For strings confined to the Basic Multilingual Plane it agrees with
`jsSortLe`; for supplementary-plane characters it does not. -/
def cpSortLe (s t : String) : Bool :=
  unitsLe (s.data.map Char.toNat) (t.data.map Char.toNat)

/-! ### JSON values

JavaScript numbers are IEEE doubles; the claims only exercise integral values
and the non-finite values `NaN` and `±Infinity`, so numbers are modelled by
`JsNum`.  `JSON.stringify` renders the non-finite values as `null`.

The array and object spines are flattened into the mutual types `JArr` and
`JObj` so that the serializer below is structurally recursive (and therefore
computable by kernel reduction). -/

inductive JsNum where
  | int (i : Int)
  | nan
  | inf (neg : Bool)

mutual
inductive JSON where
  | null
  | bool (b : Bool)
  | num (n : JsNum)
  | str (s : String)
  | arr (xs : JArr)
  | obj (fields : JObj)

inductive JArr where
  | nil
  | cons (x : JSON) (xs : JArr)

inductive JObj where
  | nil
  | cons (k : String) (v : JSON) (fs : JObj)
end

/-- JSON.stringify on a primitive number: integers print in decimal; `NaN`
and `±Infinity` print as the literal `null`. -/
def JsNum.stringify : JsNum → String
  | .int i => toString i
  | .nan => "null"
  | .inf _ => "null"

def hexDigit (n : Nat) : Char :=
  if n < 10 then Char.ofNat (48 + n) else Char.ofNat (87 + n)

/-- JSON.stringify escaping of a single character inside a quoted string. -/
def quoteChar (c : Char) : String :=
  if c = Char.ofNat 34 then "\\\""
  else if c = Char.ofNat 92 then "\\\\"
  else if c = Char.ofNat 8 then "\\b"
  else if c = Char.ofNat 9 then "\\t"
  else if c = Char.ofNat 10 then "\\n"
  else if c = Char.ofNat 12 then "\\f"
  else if c = Char.ofNat 13 then "\\r"
  else if c.toNat < 0x20 then
    "\\u00" ++ String.singleton (hexDigit (c.toNat / 16)) ++ String.singleton (hexDigit (c.toNat % 16))
  else String.singleton c

/-- JSON.stringify of a string value (minimal escaping). -/
def mkQuote (s : String) : String :=
  "\"" ++ String.join (s.data.map quoteChar) ++ "\""

/-- Object.keys: the keys of an object in insertion order. -/
def jkeys : JObj → List String
  | .nil => []
  | .cons k _ fs => k :: jkeys fs

/-- Property access `v[k]`: the value of the first field named `k`
(JavaScript objects cannot repeat a key). -/
def jfind (k : String) : JObj → JSON
  | .nil => .null
  | .cons k' v fs => if k' = k then v else jfind k fs

def jlen : JArr → Nat
  | .nil => 0
  | .cons _ xs => jlen xs + 1

def jget : JArr → Nat → JSON
  | .nil, _ => .null
  | .cons x _, 0 => x
  | .cons _ xs, n + 1 => jget xs n

/-- Lookup in an association list of already-serialized field values. -/
def sfind (k : String) : List (String × String) → String
  | [] => ""
  | (k', v) :: rest => if k' = k then v else sfind k rest

mutual
/-- The canonical serializer of `sdk/src/hash.ts` (`canonical`) and
`canonicalJSON`, parametrized by the string order used by `sort()`:

* primitives are rendered by `JSON.stringify` semantics;
* arrays serialize their elements in order;
* objects serialize `Object.keys(v).sort()` and, for each key `k` in sorted
  order, emit `JSON.stringify(k) + ":" + canonical(v[k])`.

To keep the recursion structural, the field values are serialized first
(`canonPairs`, in field order) and the sorted keys then look their rendered
value up with `sfind`; for objects with distinct keys this is exactly
`canonical(v[k])`. -/
def canonicalWith (le : String → String → Bool) : JSON → String
  | .null => "null"
  | .bool b => if b then "true" else "false"
  | .num n => n.stringify
  | .str s => mkQuote s
  | .arr xs => "[" ++ String.intercalate "," (canonList le xs) ++ "]"
  | .obj l =>
      "\x7b" ++ String.intercalate ","
        (((jkeys l).insertionSort (fun a b => le a b)).map
          (fun k => mkQuote k ++ ":" ++ sfind k (canonPairs le l))) ++ "\x7d"

def canonList (le : String → String → Bool) : JArr → List String
  | .nil => []
  | .cons x xs => canonicalWith le x :: canonList le xs

def canonPairs (le : String → String → Bool) : JObj → List (String × String)
  | .nil => []
  | .cons k v fs => (k, canonicalWith le v) :: canonPairs le fs
end

/-- The canonical serializer as implemented: `sort()` compares UTF-16 units. -/
def canonical : JSON → String :=
  canonicalWith jsSortLe

/-- Modelled from the spec: the same serializer but with object keys sorted in
code-point order, as the specification's words require ("object keys sorted
lexicographically (code-point order)").  Used only to compare the
implementation against the spec. -/
def canonicalSpecCodePoints : JSON → String :=
  canonicalWith cpSortLe

inductive SpecEncodingError where
  | encodingError

mutual
/-- Does a JSON value contain a non-finite number (`NaN` or `±Infinity`)? -/
def hasNonFinite : JSON → Bool
  | .null => false
  | .bool _ => false
  | .num n => match n with
    | .int _ => false
    | .nan => true
    | .inf _ => true
  | .str _ => false
  | .arr xs => hasNonFiniteArr xs
  | .obj l => hasNonFiniteObj l

def hasNonFiniteArr : JArr → Bool
  | .nil => false
  | .cons x xs => hasNonFinite x || hasNonFiniteArr xs

def hasNonFiniteObj : JObj → Bool
  | .nil => false
  | .cons _ v fs => hasNonFinite v || hasNonFiniteObj fs
end

/-- Modelled from the spec: "on a non-representable value (cycles, NaN,
infinity) → fail with `EncodingError`" (§4.1).  A spec-conforming serializer
would reject non-finite numbers instead of producing output.  (Cyclic values
are not representable in the inductive `JSON` domain at all.) -/
def canonicalSpecFailing (v : JSON) : Except SpecEncodingError String :=
  if hasNonFinite v then .error .encodingError else .ok (canonical v)

/-! ### Equality of JSON values

Two JSON values are equal as values when they agree on scalars, agree
pointwise on arrays, and agree as finite maps on objects (same key sets, and
equal values at every key) — independent of object key-insertion order. -/

inductive JEquiv : JSON → JSON → Prop where
  | null : JEquiv .null .null
  | bool (b : Bool) : JEquiv (.bool b) (.bool b)
  | num (n : JsNum) : JEquiv (.num n) (.num n)
  | str (s : String) : JEquiv (.str s) (.str s)
  | arr {xs ys : JArr} (hlen : jlen xs = jlen ys)
      (hval : ∀ i, i < jlen xs → JEquiv (jget xs i) (jget ys i)) :
      JEquiv (.arr xs) (.arr ys)
  | obj {l₁ l₂ : JObj} (hkeys : (jkeys l₁).Perm (jkeys l₂))
      (hval : ∀ k, k ∈ jkeys l₁ → JEquiv (jfind k l₁) (jfind k l₂)) :
      JEquiv (.obj l₁) (.obj l₂)

/-! ### Hash chain: `sdk/src/hash.ts` (`link`)

The in-memory chain head is made explicit; `digest` abstracts the BLAKE3 hex
digest (`blake3(payload).toString("hex")`).  A record's non-hash fields form a
JavaScript object, embedded as a `JObj`. -/

structure ChainEntry where
  core : JObj
  prevHash : Option String
  hash : String

/-- One step of `link` from `sdk/src/hash.ts`: canonicalize the core object,
digest it, attach `prevHash := chainHead` and `hash`, and advance the chain
head to the new hash. -/
def link (digest : String → String) (core : JObj) (chainHead : Option String) :
    ChainEntry × Option String :=
  let canon := canonical (.obj core)
  let hash := digest canon
  (⟨core, chainHead, hash⟩, some hash)

/-- Linking a sequence of records in one process, starting from a chain head. -/
def runChain (digest : String → String) :
    List JObj → Option String → List ChainEntry × Option String
  | [], h => ([], h)
  | c :: cs, h =>
      let step := link digest c h
      let rest := runChain digest cs step.2
      (step.1 :: rest.1, rest.2)

/-- Append a field at the end of an object (object spread `{...core, k: v}`
with a fresh key puts the new field last). -/
def JObj.snoc : JObj → String → JSON → JObj
  | .nil, k, v => .cons k v .nil
  | .cons k' v' fs, k, v => .cons k' v' (JObj.snoc fs k v)

def headJSON : Option String → JSON
  | none => .null
  | some h => .str h

/-- Modelled from the spec: "compute `leaf = hash(canonical(a record with
prev_hash: chain_head))`, set `chain_head := leaf`" (§4.5) — the leaf hash covering the
record with the chain head included as its `prev_hash` field.  Used only to
compare the implementation against the spec. -/
def linkSpecPrev (digest : String → String) (core : JObj) (chainHead : Option String) :
    ChainEntry × Option String :=
  let withPrev := JObj.snoc core "prevHash" (headJSON chainHead)
  let hash := digest (canonical (.obj withPrev))
  (⟨core, chainHead, hash⟩, some hash)

/-! ### Ring buffer: `src/queue/persistentBatcher.ts` (`ringPush`, `ringDrip`)

The backing JavaScript array `ring = new Array(maxRecords)` is a fixed-size
circular buffer addressed through `head` and `len`.  Unset slots (JavaScript
`undefined`) are modelled by the `Inhabited` default; the code only reads a
slot when `len > 0`, inside the occupied window. -/

structure Ring (α : Type) where
  ring : List α
  head : Nat
  len : Nat

/-- `getMaxRamRecords`: `(cfg.batchSize || 10) * 2` — `0` is falsy in
JavaScript, so a zero batch size falls back to `10`. -/
def getMaxRamRecords (batchSize : Nat) : Nat :=
  (if batchSize = 0 then 10 else batchSize) * 2

def initRing (α : Type) [Inhabited α] (maxRecords : Nat) : Ring α :=
  ⟨List.replicate maxRecords default, 0, 0⟩

/-- `ringPush`: write at `(head + len) % maxRecords`; grow `len` if there is
room, otherwise advance `head`, dropping the oldest item. -/
def ringPush (maxRecords : Nat) (item : α) (s : Ring α) : Ring α :=
  let ring' := s.ring.set ((s.head + s.len) % maxRecords) item
  if s.len < maxRecords then ⟨ring', s.head, s.len + 1⟩
  else ⟨ring', (s.head + 1) % maxRecords, s.len⟩

/-- `ringDrip(n)`: remove and return up to `n` oldest items. -/
def ringDrip [Inhabited α] (maxRecords : Nat) : Nat → Ring α → List α × Ring α
  | 0, s => ([], s)
  | n + 1, s =>
      if s.len = 0 then ([], s)
      else
        let x := s.ring.getD s.head default
        let rest := ringDrip maxRecords n ⟨s.ring, (s.head + 1) % maxRecords, s.len - 1⟩
        (x :: rest.1, rest.2)

inductive RingOp (α : Type) where
  | push (a : α)
  | drip (n : Nat)

def applyRingOp [Inhabited α] (maxRecords : Nat) (s : Ring α) : RingOp α → Ring α
  | .push a => ringPush maxRecords a s
  | .drip n => (ringDrip maxRecords n s).2

def runRingOps [Inhabited α] (maxRecords : Nat) : List (RingOp α) → Ring α → Ring α
  | [], s => s
  | op :: ops, s => runRingOps maxRecords ops (applyRingOp maxRecords s op)

/-! ### Outbox and batcher: `src/queue/persistentBatcher.ts`

A `QueueItem` is `{payload, leafHash}` with the payload kept as its serialized
form.  The outbox file is a JSON-lines log; it is embedded as the list of its
parsed lines (`Rec` = `{id, payload, leafHash}`), and its byte size is the sum
of the line lengths.  `randomUUID()` is modelled by a fresh-id counter. -/

structure QueueItem where
  payload : String
  leafHash : String
deriving DecidableEq

instance : Inhabited QueueItem := ⟨⟨"", ""⟩⟩

structure Rec where
  id : Nat
  payload : String
  leafHash : String
deriving DecidableEq

/-- Serialized form of one outbox line `JSON.stringify({id, ...item})`. -/
def stringifyRec (r : Rec) : String :=
  "\x7b\"id\":\"" ++ toString r.id ++ "\",\"payload\":" ++ r.payload
    ++ ",\"leafHash\":\"" ++ r.leafHash ++ "\"\x7d"

/-- Byte size of one line including its trailing newline. -/
def lineBytes (r : Rec) : Nat :=
  (stringifyRec r).length + 1

/-- Byte size of the outbox file. -/
def outboxSize (l : List Rec) : Nat :=
  (l.map lineBytes).sum

def MAX_FILE_BYTES : Nat := 5 * 1024 * 1024

inductive SdkError where
  | shutdown
  | backpressure
deriving DecidableEq

structure BatcherState where
  closing : Bool
  ring : Ring QueueItem
  outbox : List Rec
  nextId : Nat

def initialBatcherState (maxRecords : Nat) : BatcherState :=
  ⟨false, initRing QueueItem maxRecords, [], 0⟩

/-- `append` (the batcher's `enqueue`): reject when shutting down; append the
record (with a fresh id) to the outbox file; push the item onto the ring; then
`stat` the file and fail with backpressure if its size exceeds
`MAX_FILE_BYTES`.  The append and ring push happen before the size check, so
the state transition is the same whether or not backpressure fires. -/
def append (maxRecords : Nat) (item : QueueItem) (st : BatcherState) :
    Except SdkError Unit × BatcherState :=
  if st.closing then (.error .shutdown, st)
  else
    let rec0 : Rec := ⟨st.nextId, item.payload, item.leafHash⟩
    let outbox' := st.outbox ++ [rec0]
    let st' : BatcherState :=
      ⟨st.closing, ringPush maxRecords item st.ring, outbox', st.nextId + 1⟩
    (if MAX_FILE_BYTES < outboxSize outbox' then .error .backpressure else .ok (), st')

/-- Give each ring-sourced record a fresh id:
`ringRecords.map(record => ({id: randomUUID(), ...record}))`. -/
def assignIds (start : Nat) : List QueueItem → List Rec
  | [] => []
  | i :: is => ⟨start, i.payload, i.leafHash⟩ :: assignIds (start + 1) is

structure FlushCfg where
  batchSize : Nat
  orgId : String

structure PostCall where
  path : String
  bodyOrgId : String
  bodyRecords : List (String × String)
  headersArg : List (String × String)
deriving DecidableEq

/-- The `Transport.post` invocation built by `flushOnce`: the path, the body
`{orgId, records: batch.map(({payload, leafHash}) => ({payload, leafHash}))}`,
and the object `{"Idempotency-Key": batch[0].leafHash}` passed as the third
argument (which `Transport.post` declares as its `retries` parameter — the
call site carries a `@ts-expect-error` for this). -/
def ingestCall (orgId : String) (batch : List Rec) : PostCall :=
  { path := "/v1/ingest"
    bodyOrgId := orgId
    bodyRecords := batch.map (fun r => (r.payload, r.leafHash))
    headersArg := [("Idempotency-Key", (batch.headD ⟨0, "", ""⟩).leafHash)] }

inductive FlushOutcome where
  | idle
  | posted (batch : List Rec) (call : PostCall) (ok : Bool)
deriving DecidableEq

/-- Stage 1 of `flushOnce`: `ringDrip(batchSize)`. -/
def flushDrip (cfg : FlushCfg) (st : BatcherState) : List QueueItem × Ring QueueItem :=
  ringDrip (getMaxRamRecords cfg.batchSize) cfg.batchSize st.ring

/-- Stage 2 of `flushOnce`: the dripped ring records receive fresh ids. -/
def flushBatchRing (cfg : FlushCfg) (st : BatcherState) : List Rec :=
  assignIds st.nextId (flushDrip cfg st).1

/-- Stage 3 of `flushOnce`: when the ring part is short of `batchSize`, parse
`needed` further records off the head of the outbox file. -/
def flushDiskBatch (cfg : FlushCfg) (st : BatcherState) : List Rec :=
  if (flushBatchRing cfg st).length < cfg.batchSize then
    st.outbox.take (cfg.batchSize - (flushBatchRing cfg st).length)
  else []

/-- The raw lines collected by the `flushOnce` read loop: in the supplement
branch it stops once `2 * needed` lines were read (`totalDiskRecords >=
needed * 2`); in the other branch it reads every line of the file. -/
def flushDiskLines (cfg : FlushCfg) (st : BatcherState) : List Rec :=
  if (flushBatchRing cfg st).length < cfg.batchSize then
    st.outbox.take (2 * (cfg.batchSize - (flushBatchRing cfg st).length))
  else st.outbox

/-- The batch `flushOnce` posts: ring records (reidentified) then disk records. -/
def flushBatch (cfg : FlushCfg) (st : BatcherState) : List Rec :=
  flushBatchRing cfg st ++ flushDiskBatch cfg st

/-- `flushOnce`: drip up to `batchSize` items from the ring (assigning fresh
ids); if short, read records from the head of the outbox file.  If the batch
is empty, return.  Otherwise POST the batch.  On success, when disk records
were consumed, the file is rewritten to the collected lines minus the
consumed ones; on failure, the dripped ring records are prepended to the file
under yet more fresh ids (their originally appended lines stay in the file).
The transport outcome is the explicit `transportOk` argument. -/
def flushOnce (cfg : FlushCfg) (transportOk : Bool) (st : BatcherState) :
    FlushOutcome × BatcherState :=
  let ringRecords := (flushDrip cfg st).1
  let ring' := (flushDrip cfg st).2
  let nextId1 := st.nextId + ringRecords.length
  let diskLines := flushDiskLines cfg st
  match flushBatch cfg st with
  | [] => (.idle, ⟨st.closing, ring', st.outbox, nextId1⟩)
  | b :: rest =>
      let batch := b :: rest
      let call := ingestCall cfg.orgId batch
      if transportOk then
        let diskRecordsUsed := batch.length - ringRecords.length
        let outbox' :=
          if 0 < diskLines.length ∧ 0 < diskRecordsUsed then
            diskLines.drop diskRecordsUsed
          else st.outbox
        (.posted batch call true, ⟨st.closing, ring', outbox', nextId1⟩)
      else
        let restored := assignIds nextId1 ringRecords
        let outbox' := if 0 < ringRecords.length then restored ++ st.outbox else st.outbox
        (.posted batch call false,
          ⟨st.closing, ring', outbox', nextId1 + ringRecords.length⟩)

/-! ### Transport and retry: `node/src/network/transport.ts`,
`node/src/utils/retry.ts`

`sendJson` builds the request headers from configuration only — there is no
parameter through which a caller-supplied header could reach the request —
and throws on any response status `>= 400`.  `retry` re-runs the operation on
every thrown error, up to `attempts` tries, sleeping a full-jitter delay drawn
from `[0, baseDelay * 2^(attempt-1))` between tries. -/

def sendJsonHeaders (apiKey : String) : List (String × String) :=
  [("content-type", "application/json"),
   ("user-agent", "traceprompt-sdk/0.1.0"),
   ("x-api-key", apiKey)]

structure HttpRequest where
  method : String
  path : String
  headers : List (String × String)

/-- The wire request produced by `sendJson` for a `Transport.post` call. -/
def wireRequest (apiKey : String) (c : PostCall) : HttpRequest :=
  { method := "POST", path := c.path, headers := sendJsonHeaders apiKey }

/-- One `fetch` attempt as seen by `retry`: `sendJson` throws with the status
on any response status `>= 400` and succeeds otherwise. -/
def httpResult (status : Nat) : Except Nat Unit :=
  if 400 ≤ status then .error status else .ok ()

/-- The retry loop of `retry(fn, attempts, baseDelay)`.  `results k` is the
outcome of the `k`-th attempt (numbered from 1).  Returns the final outcome,
the number of attempts made, and the full-jitter upper bounds
`baseDelay * 2^(k-1)` of the delays slept between attempts.  The fuel equals
`attempts`, which bounds the loop. -/
def retryGo (results : Nat → Except Nat Unit) (attempts baseDelay : Nat) :
    Nat → Nat → Except Nat Unit × Nat × List Nat
  | k, 0 => (results k, k, [])
  | k, fuel + 1 =>
      match results k with
      | .ok a => (.ok a, k, [])
      | .error e =>
          if attempts ≤ k then (.error e, k, [])
          else
            let expBound := baseDelay * 2 ^ (k - 1)
            let r := retryGo results attempts baseDelay (k + 1) fuel
            (r.1, r.2.1, expBound :: r.2.2)

def retryRun (results : Nat → Except Nat Unit) (attempts baseDelay : Nat) :
    Except Nat Unit × Nat × List Nat :=
  retryGo results attempts baseDelay 1 attempts

/-! ### Wrapper: `node/src/wrapper.ts` (`wrapLLM`)

The wrapped function awaits the original call, serializes
`{prompt, response}` with `JSON.stringify`, awaits `encryptBuffer`, builds the
payload and serializes it with `json-stable-stringify`, computes the leaf hash
(`computeLeaf` is total) and calls `Batcher.enqueue` without awaiting it —
then returns the original result.  None of these steps is wrapped in a
try/catch.  The outcome of each effectful step is an explicit field of
`WrapEffects`; `wrapLLMRun` is the resulting promise behavior. -/

structure EncryptedBundle where
  ciphertext : String
  encryptedDataKey : String

structure WrapEffects (ε ρ : Type) where
  llmResult : Except ε ρ
  serializePlaintext : Except ε String
  encryptResult : Except ε EncryptedBundle
  stableStringify : Except ε String

def wrapLLMRun (eff : WrapEffects ε ρ) : Except ε ρ :=
  match eff.llmResult with
  | .error e => .error e
  | .ok r =>
      match eff.serializePlaintext with
      | .error e => .error e
      | .ok _ =>
          match eff.encryptResult with
          | .error e => .error e
          | .ok _ =>
              match eff.stableStringify with
              | .error e => .error e
              | .ok _ => .ok r

/-! ## Properties of the UTF-16 string order -/

theorem unitsLe_cons (a b : Nat) (as bs : List Nat) :
    unitsLe (a :: as) (b :: bs) =
      if a < b then true else if b < a then false else unitsLe as bs := rfl

theorem unitsLe_total : ∀ (u v : List Nat), unitsLe u v = true ∨ unitsLe v u = true
  | [], _ => Or.inl rfl
  | _ :: _, [] => Or.inr rfl
  | a :: as, b :: bs => by
      rcases Nat.lt_trichotomy a b with h | h | h
      · left; rw [unitsLe_cons, if_pos h]
      · subst h
        rcases unitsLe_total as bs with h2 | h2
        · left; rw [unitsLe_cons, if_neg (lt_irrefl a), if_neg (lt_irrefl a)]; exact h2
        · right; rw [unitsLe_cons, if_neg (lt_irrefl a), if_neg (lt_irrefl a)]; exact h2
      · right; rw [unitsLe_cons, if_pos h]

theorem unitsLe_trans : ∀ (u v w : List Nat),
    unitsLe u v = true → unitsLe v w = true → unitsLe u w = true
  | [], _, _, _, _ => rfl
  | _ :: _, [], _, h1, _ => by simp [unitsLe] at h1
  | _ :: _, _ :: _, [], _, h2 => by simp [unitsLe] at h2
  | a :: as, b :: bs, c :: cs, h1, h2 => by
      rw [unitsLe_cons] at h1 h2 ⊢
      by_cases hab : a < b
      · by_cases hbc : b < c
        · rw [if_pos (lt_trans hab hbc)]
        · by_cases hcb : c < b
          · rw [if_neg hbc, if_pos hcb] at h2; exact absurd h2 Bool.false_ne_true
          · have : b = c := le_antisymm (not_lt.mp hcb) (not_lt.mp hbc)
            subst this; rw [if_pos hab]
      · by_cases hba : b < a
        · rw [if_neg hab, if_pos hba] at h1; exact absurd h1 Bool.false_ne_true
        · have hab' : a = b := le_antisymm (not_lt.mp hba) (not_lt.mp hab)
          subst hab'
          rw [if_neg (lt_irrefl a), if_neg (lt_irrefl a)] at h1
          by_cases hbc : a < c
          · rw [if_pos hbc]
          · by_cases hcb : c < a
            · rw [if_neg hbc, if_pos hcb] at h2; exact absurd h2 Bool.false_ne_true
            · have : a = c := le_antisymm (not_lt.mp hcb) (not_lt.mp hbc)
              subst this
              rw [if_neg (lt_irrefl a), if_neg (lt_irrefl a)] at h2 ⊢
              exact unitsLe_trans as bs cs h1 h2

theorem unitsLe_antisymm : ∀ (u v : List Nat),
    unitsLe u v = true → unitsLe v u = true → u = v
  | [], [], _, _ => rfl
  | [], _ :: _, _, h2 => by simp [unitsLe] at h2
  | _ :: _, [], h1, _ => by simp [unitsLe] at h1
  | a :: as, b :: bs, h1, h2 => by
      rw [unitsLe_cons] at h1 h2
      by_cases hab : a < b
      · rw [if_neg (lt_asymm hab), if_pos hab] at h2; exact absurd h2 Bool.false_ne_true
      · by_cases hba : b < a
        · rw [if_neg hab, if_pos hba] at h1; exact absurd h1 Bool.false_ne_true
        · have he : a = b := le_antisymm (not_lt.mp hba) (not_lt.mp hab)
          subst he
          rw [if_neg (lt_irrefl a), if_neg (lt_irrefl a)] at h1 h2
          rw [unitsLe_antisymm as bs h1 h2]

theorem char_valid_toNat (c : Char) :
    c.toNat < 0xd800 ∨ (0xdfff < c.toNat ∧ c.toNat < 0x110000) := by
  have h := c.valid
  unfold UInt32.isValidChar Nat.isValidChar at h
  exact h

theorem char_toNat_inj {c d : Char} (h : c.toNat = d.toNat) : c = d :=
  Char.ext (UInt32.ext h)

theorem charUnits_ne_nil (c : Char) : charUnits c ≠ [] := by
  unfold charUnits
  by_cases h : c.toNat < 0x10000 <;> simp [h]

theorem charUnits_head_inj (c d : Char) (X Y : List Nat)
    (h : charUnits c ++ X = charUnits d ++ Y) : c = d ∧ X = Y := by
  have hc := char_valid_toNat c
  have hd := char_valid_toNat d
  unfold charUnits at h
  by_cases h1 : c.toNat < 0x10000 <;> by_cases h2 : d.toNat < 0x10000 <;>
    simp only [if_pos, if_neg, h1, h2, ite_true, ite_false, List.cons_append,
      List.nil_append, List.cons.injEq] at h
  · exact ⟨char_toNat_inj h.1, h.2⟩
  · exfalso; omega
  · exfalso; omega
  · refine ⟨char_toNat_inj ?_, h.2.2⟩
    have e1 := h.1
    have e2 := h.2.1
    omega

theorem flatMap_charUnits_inj : ∀ (cs ds : List Char),
    cs.flatMap charUnits = ds.flatMap charUnits → cs = ds
  | [], [], _ => rfl
  | [], d :: _, h => by
      rw [List.flatMap_nil, List.flatMap_cons] at h
      exact absurd (List.append_eq_nil.mp h.symm).1 (charUnits_ne_nil d)
  | c :: _, [], h => by
      rw [List.flatMap_nil, List.flatMap_cons] at h
      exact absurd (List.append_eq_nil.mp h).1 (charUnits_ne_nil c)
  | c :: cs, d :: ds, h => by
      rw [List.flatMap_cons, List.flatMap_cons] at h
      obtain ⟨hcd, hrest⟩ := charUnits_head_inj c d _ _ h
      rw [hcd, flatMap_charUnits_inj cs ds hrest]

theorem strUnits_inj {s t : String} (h : strUnits s = strUnits t) : s = t :=
  String.ext (flatMap_charUnits_inj _ _ h)

theorem jsSortLe_total (s t : String) : jsSortLe s t = true ∨ jsSortLe t s = true :=
  unitsLe_total _ _

theorem jsSortLe_trans {s t u : String} (h1 : jsSortLe s t = true)
    (h2 : jsSortLe t u = true) : jsSortLe s u = true :=
  unitsLe_trans _ _ _ h1 h2

theorem jsSortLe_antisymm {s t : String} (h1 : jsSortLe s t = true)
    (h2 : jsSortLe t s = true) : s = t :=
  strUnits_inj (unitsLe_antisymm _ _ h1 h2)

/-! ## Properties of the canonical serializer -/

theorem canonicalWith_arr (le : String → String → Bool) (xs : JArr) :
    canonicalWith le (.arr xs) = "[" ++ String.intercalate "," (canonList le xs) ++ "]" := rfl

theorem canonicalWith_obj (le : String → String → Bool) (l : JObj) :
    canonicalWith le (.obj l) =
      "\x7b" ++ String.intercalate ","
        (((jkeys l).insertionSort (fun a b => le a b)).map
          (fun k => mkQuote k ++ ":" ++ sfind k (canonPairs le l))) ++ "\x7d" := rfl

theorem sfind_canonPairs (le : String → String → Bool) (k : String) :
    ∀ (l : JObj), k ∈ jkeys l → sfind k (canonPairs le l) = canonicalWith le (jfind k l)
  | .nil, hk => by simp [jkeys] at hk
  | .cons k' v fs, hk => by
      by_cases he : k' = k
      · simp [canonPairs, sfind, jfind, he]
      · have hmem : k ∈ jkeys fs := by
          rcases List.mem_cons.mp (by simpa [jkeys] using hk) with h | h
          · exact absurd h.symm he
          · exact h
        simp [canonPairs, sfind, jfind, he, sfind_canonPairs le k fs hmem]

theorem canonList_congr (le : String → String → Bool) :
    ∀ (xs ys : JArr), jlen xs = jlen ys →
      (∀ i, i < jlen xs → canonicalWith le (jget xs i) = canonicalWith le (jget ys i)) →
      canonList le xs = canonList le ys
  | .nil, .nil, _, _ => rfl
  | .nil, .cons _ _, hlen, _ => by simp [jlen] at hlen
  | .cons _ _, .nil, hlen, _ => by simp [jlen] at hlen
  | .cons x xs, .cons y ys, hlen, hval => by
      have hx : canonicalWith le x = canonicalWith le y := hval 0 (by simp [jlen])
      have ht : canonList le xs = canonList le ys := by
        refine canonList_congr le xs ys (by simpa [jlen] using hlen) ?_
        intro i hi
        exact hval (i + 1) (by simp [jlen]; omega)
      simp [canonList, hx, ht]

/-- C5 (amended): the canonical serializer is deterministic — values that are
equal as JSON values (same maps, arrays and scalars, regardless of object
key-insertion order) serialize to the same string. -/
theorem c5_canonical_deterministic {x y : JSON} (h : JEquiv x y) :
    canonical x = canonical y := by
  induction h with
  | null => rfl
  | bool b => rfl
  | num n => rfl
  | str s => rfl
  | arr hlen hval ih =>
      show canonicalWith jsSortLe _ = canonicalWith jsSortLe _
      rw [canonicalWith_arr, canonicalWith_arr, canonList_congr jsSortLe _ _ hlen ih]
  | obj hkeys hval ih =>
      rename_i l₁ l₂
      show canonicalWith jsSortLe _ = canonicalWith jsSortLe _
      rw [canonicalWith_obj, canonicalWith_obj]
      letI : IsTrans String (fun a b => jsSortLe a b = true) := ⟨fun _ _ _ => jsSortLe_trans⟩
      letI : IsTotal String (fun a b => jsSortLe a b = true) := ⟨jsSortLe_total⟩
      letI : IsAntisymm String (fun a b => jsSortLe a b = true) := ⟨fun _ _ => jsSortLe_antisymm⟩
      have hsorteq :
          (jkeys l₁).insertionSort (fun a b => jsSortLe a b) =
            (jkeys l₂).insertionSort (fun a b => jsSortLe a b) := by
        refine @List.eq_of_perm_of_sorted String (fun a b => jsSortLe a b = true) _ _ _ ?_ ?_ ?_
        · exact (List.perm_insertionSort _ _).trans
            (hkeys.trans (List.perm_insertionSort _ _).symm)
        · exact List.sorted_insertionSort _ _
        · exact List.sorted_insertionSort _ _
      rw [hsorteq]
      have hmaps :
          ((jkeys l₂).insertionSort (fun a b => jsSortLe a b)).map
              (fun k => mkQuote k ++ ":" ++ sfind k (canonPairs jsSortLe l₁)) =
            ((jkeys l₂).insertionSort (fun a b => jsSortLe a b)).map
              (fun k => mkQuote k ++ ":" ++ sfind k (canonPairs jsSortLe l₂)) := by
        refine List.map_congr_left ?_
        intro k hk
        have hk2 : k ∈ jkeys l₂ := (List.perm_insertionSort _ _).mem_iff.mp hk
        have hk1 : k ∈ jkeys l₁ := hkeys.mem_iff.mpr hk2
        rw [sfind_canonPairs jsSortLe k l₁ hk1, sfind_canonPairs jsSortLe k l₂ hk2]
        exact congrArg (fun s => mkQuote k ++ ":" ++ s) (ih k hk1)
      rw [hmaps]

/-- C5 (witness): two concrete objects that differ only in key-insertion order
serialize identically. -/
theorem c5_canonical_deterministic_witness :
    JEquiv
      (.obj (.cons "b" (.num (.int 1))
        (.cons "a" (.arr (.cons (.bool true) (.cons .null .nil))) .nil)))
      (.obj (.cons "a" (.arr (.cons (.bool true) (.cons .null .nil)))
        (.cons "b" (.num (.int 1)) .nil))) ∧
    canonical
      (.obj (.cons "b" (.num (.int 1))
        (.cons "a" (.arr (.cons (.bool true) (.cons .null .nil))) .nil))) =
    canonical
      (.obj (.cons "a" (.arr (.cons (.bool true) (.cons .null .nil)))
        (.cons "b" (.num (.int 1)) .nil))) := by
  have hequiv : JEquiv
      (.obj (.cons "b" (.num (.int 1))
        (.cons "a" (.arr (.cons (.bool true) (.cons .null .nil))) .nil)))
      (.obj (.cons "a" (.arr (.cons (.bool true) (.cons .null .nil)))
        (.cons "b" (.num (.int 1)) .nil))) := by
    refine JEquiv.obj (List.Perm.swap "a" "b" []) ?_
    intro k hk
    have hk' : k = "b" ∨ k = "a" := by simpa [jkeys] using hk
    rcases hk' with rfl | rfl
    · exact JEquiv.num (.int 1)
    · refine JEquiv.arr rfl ?_
      intro i hi
      have hi' : i < 2 := hi
      match i, hi' with
      | 0, _ => exact JEquiv.bool true
      | 1, _ => exact JEquiv.null
  exact ⟨hequiv, c5_canonical_deterministic hequiv⟩

/-- C5 (counterexample to the claim as stated): object keys are emitted in
UTF-16 code-unit order, not code-point order.  For the object with keys
U+FFFF and U+1F600 (😀), the implementation emits 😀 (surrogate pair starting
at unit 0xD83D) before U+FFFF, while code-point order puts U+FFFF first. -/
theorem c5_counterexample :
    canonical (.obj (.cons "￿" (.num (.int 1)) (.cons "😀" (.num (.int 2)) .nil))) ≠
      canonicalSpecCodePoints
        (.obj (.cons "￿" (.num (.int 1)) (.cons "😀" (.num (.int 2)) .nil))) ∧
    canonical (.obj (.cons "￿" (.num (.int 1)) (.cons "😀" (.num (.int 2)) .nil))) =
      "\x7b\"😀\":2,\"￿\":1\x7d" ∧
    canonicalSpecCodePoints
        (.obj (.cons "￿" (.num (.int 1)) (.cons "😀" (.num (.int 2)) .nil))) =
      "\x7b\"￿\":1,\"😀\":2\x7d" := by
  refine ⟨?_, ?_, ?_⟩ <;> decide

/-- C8 (counterexample to the claim as stated): on `NaN` the canonical
serializer produces the output `null` (the `JSON.stringify` rendering)
instead of failing; the spec-modelled serializer would fail with
`EncodingError`. -/
theorem c8_counterexample :
    canonical (.num .nan) = "null" ∧
      canonicalSpecFailing (.num .nan) = .error .encodingError := ⟨rfl, rfl⟩

/-- C8 (amended): the canonical serializer never fails on non-finite numbers;
`NaN` and `±Infinity` serialize as the literal `null`, also inside arrays and
objects. -/
theorem c8_nonfinite_serializes_null :
    canonical (.num .nan) = "null" ∧
    canonical (.num (.inf false)) = "null" ∧
    canonical (.num (.inf true)) = "null" ∧
    canonical (.arr (.cons (.num .nan) .nil)) = "[null]" ∧
    canonical (.obj (.cons "a" (.num (.inf false)) .nil)) = "\x7b\"a\":null\x7d" := by
  refine ⟨rfl, rfl, rfl, ?_, ?_⟩ <;> decide

/-! ## The hash chain -/

theorem runChain_length (digest : String → String) :
    ∀ (cores : List JObj) (h : Option String),
      (runChain digest cores h).1.length = cores.length
  | [], _ => rfl
  | c :: cs, h => by
      simpa [runChain] using runChain_length digest cs (link digest c h).2

theorem runChain_prevHash_aux (digest : String → String) :
    ∀ (cores : List JObj) (h : Option String),
      (∀ (h0 : 0 < (runChain digest cores h).1.length),
          ((runChain digest cores h).1.get ⟨0, h0⟩).prevHash = h) ∧
      (∀ (k : Nat) (hk1 : k + 1 < (runChain digest cores h).1.length)
          (hk0 : k < (runChain digest cores h).1.length),
          ((runChain digest cores h).1.get ⟨k + 1, hk1⟩).prevHash =
            some (((runChain digest cores h).1.get ⟨k, hk0⟩).hash))
  | [], h => by
      constructor
      · intro h0; simp [runChain] at h0
      · intro k hk1 hk0; simp [runChain] at hk1
  | c :: cs, h => by
      constructor
      · intro _; rfl
      · intro k hk1 hk0
        cases k with
        | zero =>
            exact (runChain_prevHash_aux digest cs (link digest c h).2).1 _
        | succ j =>
            exact (runChain_prevHash_aux digest cs (link digest c h).2).2 j _ _

/-- C3: for any sequence of records chained in one process (chain head starts
at `none`), the first entry has `prevHash = none` and entry `k + 1` has
`prevHash` equal to the hash of entry `k`; one entry is produced per record. -/
theorem c3_chain_linkage (digest : String → String) (cores : List JObj) :
    (runChain digest cores none).1.length = cores.length ∧
    (∀ (h0 : 0 < (runChain digest cores none).1.length),
        ((runChain digest cores none).1.get ⟨0, h0⟩).prevHash = none) ∧
    (∀ (k : Nat) (hk1 : k + 1 < (runChain digest cores none).1.length)
        (hk0 : k < (runChain digest cores none).1.length),
        ((runChain digest cores none).1.get ⟨k + 1, hk1⟩).prevHash =
          some (((runChain digest cores none).1.get ⟨k, hk0⟩).hash)) :=
  ⟨runChain_length digest cores none, (runChain_prevHash_aux digest cores none).1,
    (runChain_prevHash_aux digest cores none).2⟩

/-- C3 (witness): a concrete two-record chain, with the digest instantiated to
an explicit function. -/
theorem c3_chain_linkage_witness :
    (((runChain (fun s => s) [JObj.cons "a" JSON.null JObj.nil, JObj.nil] none).1.get
        ⟨0, by decide⟩).prevHash = none) ∧
    (((runChain (fun s => s) [JObj.cons "a" JSON.null JObj.nil, JObj.nil] none).1.get
        ⟨1, by decide⟩).prevHash =
      some (((runChain (fun s => s) [JObj.cons "a" JSON.null JObj.nil, JObj.nil] none).1.get
        ⟨0, by decide⟩).hash)) :=
  ⟨(c3_chain_linkage (fun s => s) [JObj.cons "a" JSON.null JObj.nil, JObj.nil]).2.1 _,
    (c3_chain_linkage (fun s => s) [JObj.cons "a" JSON.null JObj.nil, JObj.nil]).2.2 0 _ _⟩

/-- C4 (counterexample to the claim as stated): instantiating the digest with
an injective function (the identity), the hash that `link` computes differs
from the spec's formula `hash(canonical({..., prev_hash: chain_head}))`: the
implementation canonicalizes the core WITHOUT the `prevHash` field.  The last
two conjuncts exhibit the two different digest inputs, so the hashes also
differ for any injective digest (in particular, BLAKE3 short of a collision). -/
theorem c4_counterexample :
    (link (fun s => s) (JObj.cons "a" (JSON.str "x") JObj.nil) (some "h")).1.hash ≠
      (linkSpecPrev (fun s => s) (JObj.cons "a" (JSON.str "x") JObj.nil) (some "h")).1.hash ∧
    canonical (.obj (JObj.cons "a" (JSON.str "x") JObj.nil)) = "\x7b\"a\":\"x\"\x7d" ∧
    canonical (.obj (JObj.snoc (JObj.cons "a" (JSON.str "x") JObj.nil) "prevHash"
        (headJSON (some "h")))) = "\x7b\"a\":\"x\",\"prevHash\":\"h\"\x7d" := by
  refine ⟨?_, ?_, ?_⟩ <;> decide

/-- C4 (amended): `link` computes the leaf hash over the canonical
serialization of the core record WITHOUT the `prev_hash` field — the leaf is
therefore independent of the chain head — then attaches `prevHash` unhashed
and advances the chain head to the leaf. -/
theorem c4_leaf_hash_excludes_prev (digest : String → String) (core : JObj)
    (h1 h2 : Option String) :
    (link digest core h1).1.hash = digest (canonical (.obj core)) ∧
    (link digest core h1).1.hash = (link digest core h2).1.hash ∧
    (link digest core h1).2 = some ((link digest core h1).1.hash) ∧
    (link digest core h1).1.prevHash = h1 :=
  ⟨rfl, rfl, rfl, rfl⟩

/-! ## The ring buffer -/

theorem ringPush_len_le (maxRecords : Nat) (a : α) (s : Ring α)
    (h : s.len ≤ maxRecords) : (ringPush maxRecords a s).len ≤ maxRecords := by
  unfold ringPush
  by_cases hlt : s.len < maxRecords <;> simp [hlt] <;> omega

theorem ringDrip_spec [Inhabited α] (maxRecords : Nat) :
    ∀ (n : Nat) (s : Ring α),
      (ringDrip maxRecords n s).1.length = min n s.len ∧
      (ringDrip maxRecords n s).2.len = s.len - min n s.len
  | 0, s => by simp [ringDrip]
  | n + 1, s => by
      by_cases h : s.len = 0
      · simp [ringDrip, h]
      · have ih := ringDrip_spec maxRecords n ⟨s.ring, (s.head + 1) % maxRecords, s.len - 1⟩
        simp only [ringDrip, if_neg h, List.length_cons]
        constructor
        · rw [ih.1]; simp; omega
        · rw [ih.2]; simp; omega

theorem runRingOps_len_le [Inhabited α] (maxRecords : Nat) :
    ∀ (ops : List (RingOp α)) (s : Ring α), s.len ≤ maxRecords →
      (runRingOps maxRecords ops s).len ≤ maxRecords
  | [], _, h => h
  | op :: ops, s, h => by
      refine runRingOps_len_le maxRecords ops _ ?_
      cases op with
      | push a => exact ringPush_len_le maxRecords a s h
      | drip n =>
          have := (ringDrip_spec maxRecords n s).2
          simp only [applyRingOp, this]
          omega

/-- C9: starting from the freshly initialized ring, the ring length stays
bounded by `2 * batchSize` under every interleaving of pushes and drips;
moreover a push onto a full ring keeps the length and advances the head
(dropping the oldest item), and `drip n` removes and returns exactly
`min n len` oldest items. -/
theorem c9_ring_cap (batchSize : Nat) (hb : 0 < batchSize)
    (ops : List (RingOp QueueItem)) :
    (runRingOps (getMaxRamRecords batchSize) ops
        (initRing QueueItem (getMaxRamRecords batchSize))).len ≤ 2 * batchSize ∧
    (∀ (s : Ring QueueItem) (a : QueueItem), s.len = getMaxRamRecords batchSize →
        (ringPush (getMaxRamRecords batchSize) a s).len = s.len ∧
        (ringPush (getMaxRamRecords batchSize) a s).head =
          (s.head + 1) % getMaxRamRecords batchSize) ∧
    (∀ (s : Ring QueueItem) (n : Nat),
        (ringDrip (getMaxRamRecords batchSize) n s).1.length = min n s.len ∧
        (ringDrip (getMaxRamRecords batchSize) n s).2.len = s.len - min n s.len) := by
  have hmax : getMaxRamRecords batchSize = 2 * batchSize := by
    unfold getMaxRamRecords
    rw [if_neg (by omega)]
    ring
  refine ⟨?_, ?_, ?_⟩
  · rw [← hmax]
    exact runRingOps_len_le _ ops _ (by simp [initRing])
  · intro s a hfull
    unfold ringPush
    rw [if_neg (by omega)]
    exact ⟨rfl, rfl⟩
  · intro s n
    exact ringDrip_spec _ n s

/-- C9 (witness): five pushes and a drip on a ring of capacity 4
(`batchSize = 2`) keep the length within the `2 * batchSize` bound. -/
theorem c9_ring_cap_witness :
    (runRingOps (getMaxRamRecords 2)
        [RingOp.push ⟨"p1", "h1"⟩, RingOp.push ⟨"p2", "h2"⟩, RingOp.push ⟨"p3", "h3"⟩,
          RingOp.push ⟨"p4", "h4"⟩, RingOp.push ⟨"p5", "h5"⟩, RingOp.drip 2]
        (initRing QueueItem (getMaxRamRecords 2))).len ≤ 2 * 2 :=
  (c9_ring_cap 2 (by decide)
    [RingOp.push ⟨"p1", "h1"⟩, RingOp.push ⟨"p2", "h2"⟩, RingOp.push ⟨"p3", "h3"⟩,
      RingOp.push ⟨"p4", "h4"⟩, RingOp.push ⟨"p5", "h5"⟩, RingOp.drip 2]).1

/-! ## Outbox append and backpressure -/

theorem outboxSize_append_one (l : List Rec) (r : Rec) :
    outboxSize (l ++ [r]) = outboxSize l + lineBytes r := by
  simp [outboxSize]

theorem outboxSize_replicate (n : Nat) (r : Rec) :
    outboxSize (List.replicate n r) = n * lineBytes r := by
  simp [outboxSize, List.map_replicate, List.sum_replicate, smul_eq_mul]

theorem lineBytes_pos (r : Rec) : 0 < lineBytes r := by
  unfold lineBytes
  omega

theorem append_unfold (maxRecords : Nat) (item : QueueItem) (st : BatcherState)
    (hclosing : st.closing = false) :
    (append maxRecords item st).1 =
      (if MAX_FILE_BYTES < outboxSize (st.outbox ++ [⟨st.nextId, item.payload, item.leafHash⟩])
        then Except.error .backpressure else Except.ok ()) ∧
    (append maxRecords item st).2 =
      ⟨false, ringPush maxRecords item st.ring,
        st.outbox ++ [⟨st.nextId, item.payload, item.leafHash⟩], st.nextId + 1⟩ := by
  rw [append, hclosing]
  exact ⟨rfl, rfl⟩

/-- C2 (amended): while the outbox file exceeds 5 MiB, `enqueue` fails with
`BackpressureError` — but the record has already been appended (and pushed to
the ring) before the size check, so the failed call still grows the file by
one line; a call that leaves the file at or below the limit succeeds. -/
theorem c2_backpressure (maxRecords : Nat) (item : QueueItem) (st : BatcherState)
    (hclosing : st.closing = false) :
    (MAX_FILE_BYTES < outboxSize st.outbox →
      (append maxRecords item st).1 = .error .backpressure ∧
      (append maxRecords item st).2.outbox =
        st.outbox ++ [⟨st.nextId, item.payload, item.leafHash⟩] ∧
      outboxSize (append maxRecords item st).2.outbox =
        outboxSize st.outbox + lineBytes ⟨st.nextId, item.payload, item.leafHash⟩) ∧
    (outboxSize (st.outbox ++ [⟨st.nextId, item.payload, item.leafHash⟩]) ≤ MAX_FILE_BYTES →
      (append maxRecords item st).1 = .ok () ∧
      (append maxRecords item st).2.outbox =
        st.outbox ++ [⟨st.nextId, item.payload, item.leafHash⟩]) := by
  obtain ⟨hres, hst⟩ := append_unfold maxRecords item st hclosing
  constructor
  · intro hbig
    have hcond : MAX_FILE_BYTES <
        outboxSize (st.outbox ++ [⟨st.nextId, item.payload, item.leafHash⟩]) := by
      rw [outboxSize_append_one]
      omega
    refine ⟨by rw [hres, if_pos hcond], by rw [hst], ?_⟩
    rw [hst]
    exact outboxSize_append_one _ _
  · intro hsmall
    exact ⟨by rw [hres, if_neg (not_lt.mpr hsmall)], by rw [hst]⟩

/-- C2 (counterexample to the claim as stated): with the outbox already over
the 5 MiB limit, `enqueue` does fail with `BackpressureError`, but the outbox
file size is NOT unchanged — the record is appended before the size check, so
the file grows by one line. -/
theorem c2_counterexample :
    (append 20 ⟨"p", "h"⟩
        ⟨false, initRing QueueItem 20, List.replicate 6000000 ⟨0, "p", "h"⟩, 0⟩).1 =
      .error .backpressure ∧
    outboxSize (append 20 ⟨"p", "h"⟩
        ⟨false, initRing QueueItem 20, List.replicate 6000000 ⟨0, "p", "h"⟩, 0⟩).2.outbox ≠
      outboxSize (List.replicate 6000000 (⟨0, "p", "h"⟩ : Rec)) := by
  obtain ⟨hres, hst⟩ := append_unfold 20 ⟨"p", "h"⟩
    ⟨false, initRing QueueItem 20, List.replicate 6000000 ⟨0, "p", "h"⟩, 0⟩ rfl
  have hone : 1 ≤ lineBytes ⟨0, "p", "h"⟩ := lineBytes_pos _
  have hmul : 6000000 * 1 ≤ 6000000 * lineBytes ⟨0, "p", "h"⟩ :=
    Nat.mul_le_mul_left _ hone
  have hbig : MAX_FILE_BYTES <
      outboxSize (List.replicate 6000000 (⟨0, "p", "h"⟩ : Rec)) := by
    rw [outboxSize_replicate]
    unfold MAX_FILE_BYTES
    omega
  have hcond : MAX_FILE_BYTES <
      outboxSize (List.replicate 6000000 (⟨0, "p", "h"⟩ : Rec) ++ [⟨0, "p", "h"⟩]) := by
    rw [outboxSize_append_one]
    omega
  constructor
  · rw [hres, if_pos hcond]
  · rw [hst]
    dsimp only
    rw [outboxSize_append_one]
    have := lineBytes_pos (⟨0, "p", "h"⟩ : Rec)
    omega

set_option maxRecDepth 4000 in
/-- C2 (witness): the amended theorem applied at two concrete states: one with
an oversized outbox (the append fails with backpressure and the file grows),
and one with an empty outbox (the append succeeds). -/
theorem c2_backpressure_witness :
    (append 20 ⟨"p", "h"⟩
        ⟨false, initRing QueueItem 20, List.replicate 6000000 ⟨0, "p", "h"⟩, 0⟩).1 =
      .error .backpressure ∧
    (append 20 ⟨"p", "h"⟩ ⟨false, initRing QueueItem 20, [], 0⟩).1 = .ok () := by
  constructor
  · have hone : 1 ≤ lineBytes ⟨0, "p", "h"⟩ := lineBytes_pos _
    have hmul : 6000000 * 1 ≤ 6000000 * lineBytes ⟨0, "p", "h"⟩ :=
      Nat.mul_le_mul_left _ hone
    have hbig : MAX_FILE_BYTES <
        outboxSize (List.replicate 6000000 (⟨0, "p", "h"⟩ : Rec)) := by
      rw [outboxSize_replicate]
      unfold MAX_FILE_BYTES
      omega
    exact (c2_backpressure 20 ⟨"p", "h"⟩
      ⟨false, initRing QueueItem 20, List.replicate 6000000 ⟨0, "p", "h"⟩, 0⟩ rfl).1 hbig |>.1
  · exact ((c2_backpressure 20 ⟨"p", "h"⟩ ⟨false, initRing QueueItem 20, [], 0⟩ rfl).2
      (by decide)).1

/-! ## The batch POST and the Idempotency-Key header -/

theorem flushOnce_posted_call (cfg : FlushCfg) (tok : Bool) (st : BatcherState)
    {batch : List Rec} {call : PostCall} {okf : Bool}
    (h : (flushOnce cfg tok st).1 = .posted batch call okf) :
    call = ingestCall cfg.orgId batch := by
  unfold flushOnce at h
  cases hb : flushBatch cfg st with
  | nil =>
      rw [hb] at h
      simp at h
  | cons b rest =>
      rw [hb] at h
      cases tok <;> simp only [] at h <;> simp at h <;>
        rw [← h.1, ← h.2.1]

/-- C1 (code behavior): whenever `flushOnce` posts a non-empty batch, the
object `{"Idempotency-Key": batch[0].leafHash}` is built — but it is passed in
the `retries` parameter slot of `Transport.post` (the call site carries a
`@ts-expect-error`), and the wire request built by `sendJson` carries exactly
the three fixed headers: the POST to `/v1/ingest` has no `Idempotency-Key`
header at all. -/
theorem c1_idempotency_key_never_sent (cfg : FlushCfg) (tok : Bool) (st : BatcherState)
    (batch : List Rec) (call : PostCall) (okf : Bool) (apiKey : String)
    (h : (flushOnce cfg tok st).1 = .posted batch call okf) :
    call.path = "/v1/ingest" ∧
    call.headersArg = [("Idempotency-Key", (batch.headD ⟨0, "", ""⟩).leafHash)] ∧
    (wireRequest apiKey call).headers.map Prod.fst =
      ["content-type", "user-agent", "x-api-key"] ∧
    ((wireRequest apiKey call).headers.lookup "Idempotency-Key") = none := by
  have hcall := flushOnce_posted_call cfg tok st h
  subst hcall
  exact ⟨rfl, rfl, rfl, rfl⟩

/-- C1 (witness): a concrete flush of a non-empty batch; the intended header
value sits in `headersArg` while the sent headers contain no Idempotency-Key. -/
theorem c1_idempotency_key_never_sent_witness :
    ((flushOnce ⟨10, "org"⟩ true
        ((append (getMaxRamRecords 10) ⟨"p", "h"⟩
          (initialBatcherState (getMaxRamRecords 10))).2)).1 =
      FlushOutcome.posted [⟨1, "p", "h"⟩, ⟨0, "p", "h"⟩]
        (ingestCall "org" [⟨1, "p", "h"⟩, ⟨0, "p", "h"⟩]) true) ∧
    (ingestCall "org" [⟨1, "p", "h"⟩, ⟨0, "p", "h"⟩]).headersArg =
      [("Idempotency-Key", "h")] ∧
    (wireRequest "key" (ingestCall "org" [⟨1, "p", "h"⟩, ⟨0, "p", "h"⟩])).headers.lookup
      "Idempotency-Key" = none := by
  have hpost : (flushOnce ⟨10, "org"⟩ true
      ((append (getMaxRamRecords 10) ⟨"p", "h"⟩
        (initialBatcherState (getMaxRamRecords 10))).2)).1 =
      FlushOutcome.posted [⟨1, "p", "h"⟩, ⟨0, "p", "h"⟩]
        (ingestCall "org" [⟨1, "p", "h"⟩, ⟨0, "p", "h"⟩]) true := by decide
  refine ⟨hpost, ?_, ?_⟩
  · exact (c1_idempotency_key_never_sent ⟨10, "org"⟩ true _ _ _ _ "key" hpost).2.1
  · exact (c1_idempotency_key_never_sent ⟨10, "org"⟩ true _ _ _ _ "key" hpost).2.2.2

/-- C10: record ids are not stable across the pipeline.  Enqueueing one item
writes it to the outbox under fresh id 0; a subsequent failed flush drips it
from the ring, assigns it fresh id 1 for the posted batch, and prepends it to
the outbox under yet another fresh id 2 — while its originally appended line
(id 0) remains in the file.  The same logical record then sits in the outbox
twice under different ids. -/
theorem c10_fresh_ids_duplicate_record (item : QueueItem) :
    ((append (getMaxRamRecords 10) item (initialBatcherState (getMaxRamRecords 10))).2.outbox =
      [⟨0, item.payload, item.leafHash⟩]) ∧
    ((flushOnce ⟨10, "org"⟩ false
        ((append (getMaxRamRecords 10) item (initialBatcherState (getMaxRamRecords 10))).2)).1 =
      .posted [⟨1, item.payload, item.leafHash⟩, ⟨0, item.payload, item.leafHash⟩]
        (ingestCall "org"
          [⟨1, item.payload, item.leafHash⟩, ⟨0, item.payload, item.leafHash⟩]) false) ∧
    ((flushOnce ⟨10, "org"⟩ false
        ((append (getMaxRamRecords 10) item (initialBatcherState (getMaxRamRecords 10))).2)).2.outbox =
      [⟨2, item.payload, item.leafHash⟩, ⟨0, item.payload, item.leafHash⟩]) :=
  ⟨rfl, rfl, rfl⟩

/-! ## Transport retry classification -/

/-- C7 (code behavior): the retry loop draws no distinction between statuses —
a persistent HTTP 400 (a non-429 4xx) is retried exactly like a persistent
HTTP 503, five attempts in total with full-jitter bounds 250·2^(n−1) ms; a
503 that recovers on the fourth attempt stops there. -/
theorem c7_4xx_retried_like_5xx :
    retryRun (fun _ => httpResult 400) 5 250 = (.error 400, 5, [250, 500, 1000, 2000]) ∧
    retryRun (fun _ => httpResult 503) 5 250 = (.error 503, 5, [250, 500, 1000, 2000]) ∧
    retryRun (fun k => if k ≤ 3 then httpResult 503 else httpResult 200) 5 250 =
      (.ok (), 4, [250, 500, 1000]) :=
  ⟨rfl, rfl, rfl⟩

/-! ## Wrapper error propagation -/

/-- C6 (code behavior): `wrapLLM`'s wrapped function has no try/catch — when
the underlying LLM call succeeds but an audit-internal step rejects
(serialization or the awaited `encryptBuffer`), that error is surfaced to the
caller; an error thrown by the wrapped LLM itself propagates unchanged, and
on a fully successful run the original result is returned. -/
theorem c6_audit_errors_surface (ε ρ : Type) (r : ρ) (e e0 : ε) (s p : String)
    (b : EncryptedBundle) :
    wrapLLMRun (⟨.ok r, .ok s, .error e, .ok p⟩ : WrapEffects ε ρ) = .error e ∧
    wrapLLMRun (⟨.ok r, .error e, .ok b, .ok p⟩ : WrapEffects ε ρ) = .error e ∧
    wrapLLMRun (⟨.error e0, .ok s, .ok b, .ok p⟩ : WrapEffects ε ρ) = .error e0 ∧
    wrapLLMRun (⟨.ok r, .ok s, .ok b, .ok p⟩ : WrapEffects ε ρ) = .ok r :=
  ⟨rfl, rfl, rfl, rfl⟩

end Traceprompt
